import Mathlib

/-!
# Verification of the cubic bezier easing module

A shallow embedding of `src/packages/common-widgets/utils/bezier-easing.ts`
over the rational numbers (exact arithmetic).  Every function below is a
direct translation of the source function of the same name; loops are
translated to structural recursion on an explicit counter that mirrors the
source's loop counter.
-/

namespace BezierEasing

/-- Constant `NEWTON_ITERATIONS = 4`. -/
def NEWTON_ITERATIONS : ℕ := 4

/-- Constant `NEWTON_MIN_SLOPE = 0.001`. -/
def NEWTON_MIN_SLOPE : ℚ := 1/1000

/-- Constant `SUBDIVISION_PRECISION = 0.0000001`. -/
def SUBDIVISION_PRECISION : ℚ := 1/10000000

/-- Constant `SUBDIVISION_MAX_ITERATIONS = 10`. -/
def SUBDIVISION_MAX_ITERATIONS : ℕ := 10

/-- Constant `kSplineTableSize = 11`. -/
def kSplineTableSize : ℕ := 11

/-- Constant `kSampleStepSize = 1.0 / (kSplineTableSize - 1.0)`. -/
def kSampleStepSize : ℚ := 1/10

/-- Source function `A`: returns `1.0 - 3.0 * aA2 + 3.0 * aA1`. -/
def A (aA1 aA2 : ℚ) : ℚ := 1 - 3 * aA2 + 3 * aA1

/-- Source function `B`: returns `3.0 * aA2 - 6.0 * aA1`. -/
def B (aA1 aA2 : ℚ) : ℚ := 3 * aA2 - 6 * aA1

/-- Source function `C`: returns `3.0 * aA1`. -/
def C (aA1 : ℚ) : ℚ := 3 * aA1

/-- Function `calcBezier`: returns x(t) given t, x1 and x2, or y(t) given t, y1 and y2. -/
def calcBezier (aT aA1 aA2 : ℚ) : ℚ :=
  ((A aA1 aA2 * aT + B aA1 aA2) * aT + C aA1) * aT

/-- Function `getSlope`: returns dx/dt given t, x1 and x2, or dy/dt given t, y1 and y2. -/
def getSlope (aT aA1 aA2 : ℚ) : ℚ :=
  3 * A aA1 aA2 * aT * aT + 2 * B aA1 aA2 * aT + C aA1

/-- The body of `binarySubdivide`'s do-while loop.  The first component of
the result is the returned `currentT`, the second counts how many times the
loop body ran.  The counter argument is the number of additional iterations
the `++i < SUBDIVISION_MAX_ITERATIONS` test still allows (the source starts
with `i = 0` and pre-increments, so after the first body execution nine more
are allowed). -/
def binarySubdivideGo (aX mX1 mX2 : ℚ) : ℚ → ℚ → ℕ → ℚ × ℕ
  | aA, aB, 0 => (aA + (aB - aA) / 2, 1)
  | aA, aB, n + 1 =>
    let currentT := aA + (aB - aA) / 2
    let currentX := calcBezier currentT mX1 mX2 - aX
    if |currentX| > SUBDIVISION_PRECISION then
      let r := if currentX > 0 then binarySubdivideGo aX mX1 mX2 aA currentT n
               else binarySubdivideGo aX mX1 mX2 currentT aB n
      (r.1, r.2 + 1)
    else (currentT, 1)

/-- Source function `binarySubdivide(aX, aA, aB, mX1, mX2)`. -/
def binarySubdivide (aX aA aB mX1 mX2 : ℚ) : ℚ :=
  (binarySubdivideGo aX mX1 mX2 aA aB (SUBDIVISION_MAX_ITERATIONS - 1)).1

/-- The `for` loop of `newtonRaphsonIterate`, recursing on the number of
iterations still to run. -/
def newtonRaphsonGo (aX mX1 mX2 : ℚ) : ℚ → ℕ → ℚ
  | aGuessT, 0 => aGuessT
  | aGuessT, n + 1 =>
    let currentSlope := getSlope aGuessT mX1 mX2
    if currentSlope = 0 then aGuessT
    else
      let currentX := calcBezier aGuessT mX1 mX2 - aX
      newtonRaphsonGo aX mX1 mX2 (aGuessT - currentX / currentSlope) n

/-- Source function `newtonRaphsonIterate(aX, aGuessT, mX1, mX2)`. -/
def newtonRaphsonIterate (aX aGuessT mX1 mX2 : ℚ) : ℚ :=
  newtonRaphsonGo aX mX1 mX2 aGuessT NEWTON_ITERATIONS

/-- Source function `LinearEasing`: the identity. -/
def LinearEasing (x : ℚ) : ℚ := x

/-- The precomputed sample table:
`for (let i = 0; i < kSplineTableSize; ++i) sampleValues[i] = calcBezier(i * kSampleStepSize, mX1, mX2)`. -/
def sampleValues (mX1 mX2 : ℚ) : List ℚ :=
  (List.range kSplineTableSize).map fun i : ℕ => calcBezier ((i : ℚ) * kSampleStepSize) mX1 mX2

/-- Reading `sampleValues[i]`. -/
def sample (mX1 mX2 : ℚ) (i : ℕ) : ℚ := (sampleValues mX1 mX2).getD i 0

/-- The bracketing scan of `getTForX`:
`for (; currentSample !== lastSample && sampleValues[currentSample] <= aX; ++currentSample) intervalStart += kSampleStepSize;`
returning the final `(currentSample, intervalStart)`.  The fuel argument only
bounds the recursion; the source's `currentSample !== lastSample` test always
stops the loop before the initial fuel of `kSplineTableSize - 1` runs out. -/
def scanLoop (sv : ℕ → ℚ) (aX : ℚ) (lastSample : ℕ) : ℕ → ℕ → ℚ → ℕ × ℚ
  | 0, currentSample, intervalStart => (currentSample, intervalStart)
  | fuel + 1, currentSample, intervalStart =>
    if currentSample ≠ lastSample ∧ sv currentSample ≤ aX then
      scanLoop sv aX lastSample fuel (currentSample + 1) (intervalStart + kSampleStepSize)
    else (currentSample, intervalStart)

/-- Source function `getTForX(aX)` (a closure over `mX1`, `mX2` and the sample table
in the source, here taking them as arguments). -/
def getTForX (mX1 mX2 aX : ℚ) : ℚ :=
  let sv := sample mX1 mX2
  let p := scanLoop sv aX (kSplineTableSize - 1) (kSplineTableSize - 1) 1 0
  let currentSample := p.1 - 1
  let intervalStart := p.2
  let dist := (aX - sv currentSample) / (sv (currentSample + 1) - sv currentSample)
  let guessForT := intervalStart + dist * kSampleStepSize
  let initialSlope := getSlope guessForT mX1 mX2
  if initialSlope ≥ NEWTON_MIN_SLOPE then
    newtonRaphsonIterate aX guessForT mX1 mX2
  else if initialSlope = 0 then
    guessForT
  else
    binarySubdivide aX intervalStart (intervalStart + kSampleStepSize) mX1 mX2

/-- Source function `BezierEasing(x)`: the evaluation function returned by `bezier`
in the non-identity case. -/
def BezierEasing (mX1 mY1 mX2 mY2 x : ℚ) : ℚ :=
  if x = 0 ∨ x = 1 then x
  else calcBezier (getTForX mX1 mX2 x) mY1 mY2

/-- Entry point `bezier(mX1, mY1, mX2, mY2)`.  Throwing is
modelled with `Except.error`. -/
def bezier (mX1 mY1 mX2 mY2 : ℚ) : Except String (ℚ → ℚ) :=
  if ¬(mX1 ≥ 0 ∧ mX1 ≤ 1 ∧ mX2 ≥ 0 ∧ mX2 ≤ 1) then
    Except.error "bezier x values must be in [0, 1] range"
  else if mX1 = mY1 ∧ mX2 = mY2 then
    Except.ok LinearEasing
  else
    Except.ok (BezierEasing mX1 mY1 mX2 mY2)

/-! ## IEEE-comparison model of the argument guard

JavaScript numbers include NaN, and every `>=`/`<=` comparison with NaN is
false.  `Option ℚ` adjoins NaN (`none`) to the rationals and `jsGe`/`jsLe`
give the comparisons the IEEE semantics used by the source's guard
`mX1 >= 0 && mX1 <= 1 && mX2 >= 0 && mX2 <= 1`. -/

/-- IEEE `>=`: false whenever either operand is NaN. -/
def jsGe : Option ℚ → Option ℚ → Bool
  | some a, some b => a ≥ b
  | _, _ => false

/-- IEEE `<=`: false whenever either operand is NaN. -/
def jsLe : Option ℚ → Option ℚ → Bool
  | some a, some b => a ≤ b
  | _, _ => false

/-- The conjunction `mX1 >= 0 && mX1 <= 1 && mX2 >= 0 && mX2 <= 1` from the
constructor's guard, under IEEE comparison semantics. -/
def xRangeCheck (mX1 mX2 : Option ℚ) : Bool :=
  jsGe mX1 (some 0) && jsLe mX1 (some 1) && jsGe mX2 (some 0) && jsLe mX2 (some 1)

/-! ## Accessors naming the intermediate values of `getTForX` -/

/-- The `(currentSample, intervalStart)` pair produced by `getTForX`'s scan. -/
def scanResult (mX1 mX2 aX : ℚ) : ℕ × ℚ :=
  scanLoop (sample mX1 mX2) aX (kSplineTableSize - 1) (kSplineTableSize - 1) 1 0

/-- Value of `intervalStart` as left by the scan. -/
def intervalStartOf (mX1 mX2 aX : ℚ) : ℚ := (scanResult mX1 mX2 aX).2

/-- The interpolated initial guess `guessForT` of `getTForX`. -/
def guessForT (mX1 mX2 aX : ℚ) : ℚ :=
  intervalStartOf mX1 mX2 aX +
    ((aX - sample mX1 mX2 ((scanResult mX1 mX2 aX).1 - 1)) /
      (sample mX1 mX2 ((scanResult mX1 mX2 aX).1 - 1 + 1) -
        sample mX1 mX2 ((scanResult mX1 mX2 aX).1 - 1))) * kSampleStepSize

theorem getTForX_branches (mX1 mX2 aX : ℚ) :
    getTForX mX1 mX2 aX =
      if getSlope (guessForT mX1 mX2 aX) mX1 mX2 ≥ NEWTON_MIN_SLOPE then
        newtonRaphsonIterate aX (guessForT mX1 mX2 aX) mX1 mX2
      else if getSlope (guessForT mX1 mX2 aX) mX1 mX2 = 0 then
        guessForT mX1 mX2 aX
      else
        binarySubdivide aX (intervalStartOf mX1 mX2 aX)
          (intervalStartOf mX1 mX2 aX + kSampleStepSize) mX1 mX2 := rfl

/-! ## Shared lemmas -/

theorem sample_eq (mX1 mX2 : ℚ) (i : ℕ) (hi : i < kSplineTableSize) :
    sample mX1 mX2 i = calcBezier ((i : ℚ) * kSampleStepSize) mX1 mX2 := by
  rw [sample, sampleValues, List.getD_eq_getElem?_getD, List.getElem?_map,
    List.getElem?_range hi]
  rfl

/-- The divided difference of `calcBezier` between parameters `s` and `t`. -/
def Qdiff (aA1 aA2 s t : ℚ) : ℚ :=
  A aA1 aA2 * (t * t + t * s + s * s) + B aA1 aA2 * (t + s) + C aA1

theorem calcBezier_sub (aA1 aA2 s t : ℚ) :
    calcBezier t aA1 aA2 - calcBezier s aA1 aA2 = (t - s) * Qdiff aA1 aA2 s t := by
  rw [calcBezier, calcBezier, Qdiff, A, B, C]
  ring

theorem calcBezier_zero (aA1 aA2 : ℚ) : calcBezier 0 aA1 aA2 = 0 := by
  rw [calcBezier]
  ring

theorem calcBezier_one (aA1 aA2 : ℚ) : calcBezier 1 aA1 aA2 = 1 := by
  rw [calcBezier, A, B, C]
  ring

/-- With both control x-coordinates in [0,1] the divided difference of the
x-cubic between any two parameters of [0,1] is at least `(t - s)^2`: the
x-cubic is strictly increasing, with an explicit cubic lower bound. -/
theorem Qdiff_ge_sq (x1 x2 s t : ℚ) (hx10 : 0 ≤ x1) (hx11 : x1 ≤ 1)
    (hx20 : 0 ≤ x2) (hx21 : x2 ≤ 1) (hs0 : 0 ≤ s) (hs1 : s ≤ 1)
    (ht0 : 0 ≤ t) (ht1 : t ≤ 1) : (t - s) ^ 2 ≤ Qdiff x1 x2 s t := by
  rw [Qdiff, A, B, C]
  nlinarith [mul_nonneg (mul_nonneg (sub_nonneg.2 hx11) (sub_nonneg.2 hx21))
      (mul_nonneg hs0 ht0),
    mul_nonneg (mul_nonneg (sub_nonneg.2 hx11) hx20)
      (add_nonneg (mul_nonneg hs0 (sub_nonneg.2 hs1)) (mul_nonneg ht0 (sub_nonneg.2 ht1))),
    mul_nonneg (mul_nonneg hx10 (sub_nonneg.2 hx21)) (sq_nonneg (s + t - 1)),
    mul_nonneg (mul_nonneg hx10 hx20)
      (mul_nonneg (sub_nonneg.2 hs1) (sub_nonneg.2 ht1))]

/-- With both control x-coordinates in [0,1] the divided difference of the
x-cubic between parameters of [0,1] is at most 4 (a Lipschitz bound). -/
theorem Qdiff_le_four (x1 x2 s t : ℚ) (hx10 : 0 ≤ x1) (hx11 : x1 ≤ 1)
    (hx20 : 0 ≤ x2) (hx21 : x2 ≤ 1) (hs0 : 0 ≤ s) (hs1 : s ≤ 1)
    (ht0 : 0 ≤ t) (ht1 : t ≤ 1) : Qdiff x1 x2 s t ≤ 4 := by
  have h00 : (0:ℚ) ≤ 4 - (t * t + t * s + s * s) := by nlinarith
  have h01 : (0:ℚ) ≤ 4 - (3 * (s + t) - 2 * (t * t + t * s + s * s)) := by nlinarith
  have h10 : (0:ℚ) ≤ 4 - (4 * (t * t + t * s + s * s) - 6 * (s + t) + 3) := by
    nlinarith [mul_nonneg hs0 (sub_nonneg.2 hs1), mul_nonneg ht0 (sub_nonneg.2 ht1),
      sq_nonneg (s - t)]
  have h11 : (0:ℚ) ≤ 4 - ((t * t + t * s + s * s) - 3 * (s + t) + 3) := by
    nlinarith [mul_nonneg (sub_nonneg.2 hs1) (sub_nonneg.2 ht1)]
  rw [Qdiff, A, B, C]
  nlinarith [mul_nonneg (mul_nonneg (sub_nonneg.2 hx11) (sub_nonneg.2 hx21)) h00,
    mul_nonneg (mul_nonneg (sub_nonneg.2 hx11) hx20) h01,
    mul_nonneg (mul_nonneg hx10 (sub_nonneg.2 hx21)) h10,
    mul_nonneg (mul_nonneg hx10 hx20) h11]

theorem calcBezier_strictMono (x1 x2 s t : ℚ) (hx10 : 0 ≤ x1) (hx11 : x1 ≤ 1)
    (hx20 : 0 ≤ x2) (hx21 : x2 ≤ 1) (hs0 : 0 ≤ s) (hs1 : s ≤ 1)
    (ht0 : 0 ≤ t) (ht1 : t ≤ 1) (hst : s < t) :
    calcBezier s x1 x2 < calcBezier t x1 x2 := by
  have hq := Qdiff_ge_sq x1 x2 s t hx10 hx11 hx20 hx21 hs0 hs1 ht0 ht1
  have hsub := calcBezier_sub x1 x2 s t
  have hts : 0 < t - s := sub_pos.2 hst
  have hsq : 0 < (t - s) ^ 2 := by positivity
  have hqpos : 0 < Qdiff x1 x2 s t := lt_of_lt_of_le hsq hq
  nlinarith [mul_pos hts hqpos]

theorem calcBezier_mono (x1 x2 s t : ℚ) (hx10 : 0 ≤ x1) (hx11 : x1 ≤ 1)
    (hx20 : 0 ≤ x2) (hx21 : x2 ≤ 1) (hs0 : 0 ≤ s) (hs1 : s ≤ 1)
    (ht0 : 0 ≤ t) (ht1 : t ≤ 1) (hst : s ≤ t) :
    calcBezier s x1 x2 ≤ calcBezier t x1 x2 := by
  rcases eq_or_lt_of_le hst with h | h
  · rw [h]
  · exact le_of_lt (calcBezier_strictMono x1 x2 s t hx10 hx11 hx20 hx21 hs0 hs1 ht0 ht1 h)

/-- Lipschitz upper bound: the x-cubic grows by at most 4·(t-s) between
parameters of [0,1]. -/
theorem calcBezier_lipschitz (x1 x2 s t : ℚ) (hx10 : 0 ≤ x1) (hx11 : x1 ≤ 1)
    (hx20 : 0 ≤ x2) (hx21 : x2 ≤ 1) (hs0 : 0 ≤ s) (hs1 : s ≤ 1)
    (ht0 : 0 ≤ t) (ht1 : t ≤ 1) (hst : s ≤ t) :
    calcBezier t x1 x2 - calcBezier s x1 x2 ≤ 4 * (t - s) := by
  have hq := Qdiff_le_four x1 x2 s t hx10 hx11 hx20 hx21 hs0 hs1 ht0 ht1
  have hsub := calcBezier_sub x1 x2 s t
  nlinarith [sub_nonneg.2 hst]

/-- Behaviour of the bracketing scan: starting from `currentSample = 1` with
enough fuel, the scan ends at an index of `[1, 10]`, leaves `intervalStart`
at `(currentSample - 1) / 10`, stops only at the last index or at the first
sample exceeding `aX`, and moves only over samples that are at most `aX`. -/
theorem scanLoop_spec (sv : ℕ → ℚ) (aX : ℚ) :
    ∀ (fuel : ℕ) (cs : ℕ) (istart : ℚ), 1 ≤ cs → cs ≤ 10 → 11 ≤ cs + fuel →
      istart = ((cs : ℚ) - 1) * kSampleStepSize →
      1 ≤ (scanLoop sv aX 10 fuel cs istart).1 ∧
      (scanLoop sv aX 10 fuel cs istart).1 ≤ 10 ∧
      (scanLoop sv aX 10 fuel cs istart).2 =
        (((scanLoop sv aX 10 fuel cs istart).1 : ℚ) - 1) * kSampleStepSize ∧
      ((scanLoop sv aX 10 fuel cs istart).1 = 10 ∨
        aX < sv (scanLoop sv aX 10 fuel cs istart).1) ∧
      ((scanLoop sv aX 10 fuel cs istart).1 = cs ∨
        sv ((scanLoop sv aX 10 fuel cs istart).1 - 1) ≤ aX) := by
  intro fuel
  induction fuel with
  | zero => intro cs istart h1 h10 hfuel hist; omega
  | succ fuel ih =>
    intro cs istart h1 h10 hfuel hist
    by_cases h : cs ≠ 10 ∧ sv cs ≤ aX
    · rw [scanLoop, if_pos h]
      have hcs9 : cs ≤ 9 := by omega
      have hrec := ih (cs + 1) (istart + kSampleStepSize) (by omega) (by omega) (by omega)
        (by rw [hist, kSampleStepSize]; push_cast; ring)
      refine ⟨hrec.1, hrec.2.1, hrec.2.2.1, hrec.2.2.2.1, ?_⟩
      rcases hrec.2.2.2.2 with heq | hle
      · right
        rw [heq]
        simpa using h.2
      · right
        exact hle
    · rw [scanLoop, if_neg h]
      push_neg at h
      refine ⟨h1, h10, hist, ?_, Or.inl rfl⟩
      by_cases hcs : cs = 10
      · exact Or.inl hcs
      · exact Or.inr (h hcs)

/-- The scan's bracketing guarantee: for a target strictly between 0 and 1
the scan stops at an index `cs ∈ [1,10]` with
`x(t) ≤ aX` at the bracket's left parameter `(cs-1)/10` and `aX < x(t)` at
its right parameter `cs/10`, and `intervalStart = (cs-1)/10`. -/
theorem scan_bracket (mX1 mX2 aX : ℚ) (ha0 : 0 < aX) (ha1 : aX < 1) :
    1 ≤ (scanResult mX1 mX2 aX).1 ∧ (scanResult mX1 mX2 aX).1 ≤ 10 ∧
    intervalStartOf mX1 mX2 aX = (((scanResult mX1 mX2 aX).1 : ℚ) - 1) * kSampleStepSize ∧
    calcBezier ((((scanResult mX1 mX2 aX).1 : ℚ) - 1) * kSampleStepSize) mX1 mX2 ≤ aX ∧
    aX < calcBezier (((scanResult mX1 mX2 aX).1 : ℚ) * kSampleStepSize) mX1 mX2 := by
  have hres : scanResult mX1 mX2 aX = scanLoop (sample mX1 mX2) aX 10 10 1 0 := rfl
  have hspec := scanLoop_spec (sample mX1 mX2) aX 10 1 0 (le_refl 1) (by norm_num)
    (by norm_num) (by norm_num)
  rw [intervalStartOf, hres]
  obtain ⟨h1, h10, hist, hexit, hmove⟩ := hspec
  refine ⟨h1, h10, hist, ?_, ?_⟩
  · rcases hmove with heq | hle
    · rw [heq]
      norm_num [calcBezier_zero]
      exact le_of_lt ha0
    · have hcast : (((scanLoop (sample mX1 mX2) aX 10 10 1 0).1 - 1 : ℕ) : ℚ) =
          ((scanLoop (sample mX1 mX2) aX 10 10 1 0).1 : ℚ) - 1 := by
        push_cast [h1]
        ring
      rw [sample_eq mX1 mX2 _ (by simp only [kSplineTableSize]; omega), hcast] at hle
      exact hle
  · rcases hexit with heq | hlt
    · rw [heq]
      have : ((10 : ℕ) : ℚ) * kSampleStepSize = 1 := by norm_num [kSampleStepSize]
      rw [this, calcBezier_one]
      exact ha1
    · rw [sample_eq mX1 mX2 _ (by simp only [kSplineTableSize]; omega)] at hlt
      exact hlt

/-- Adjacent sample-table entries are strictly increasing for any valid
control x-coordinates. -/
theorem sample_lt_succ (mX1 mX2 : ℚ) (hx10 : 0 ≤ mX1) (hx11 : mX1 ≤ 1)
    (hx20 : 0 ≤ mX2) (hx21 : mX2 ≤ 1) (j : ℕ) (hj : j < 10) :
    sample mX1 mX2 j < sample mX1 mX2 (j + 1) := by
  have hj9 : (j : ℚ) ≤ 9 := by exact_mod_cast Nat.lt_succ_iff.mp hj
  have hj0 : (0:ℚ) ≤ (j : ℚ) := by positivity
  rw [sample_eq mX1 mX2 j (by simp only [kSplineTableSize]; omega), sample_eq mX1 mX2 (j + 1) (by simp only [kSplineTableSize]; omega), kSampleStepSize]
  apply calcBezier_strictMono mX1 mX2 _ _ hx10 hx11 hx20 hx21
  · positivity
  · linarith
  · push_cast
    positivity
  · push_cast
    linarith
  · push_cast
    linarith

/-! ## Claim theorems -/

/-- C10: in exact arithmetic the sample table of a valid curve is strictly
increasing (the x-cubic with control coordinates in [0,1] is strictly
increasing), so for every bracketing index `currentSample` left by the
table scan — for any target whatsoever — the interpolation denominator
`sampleValues[currentSample + 1] - sampleValues[currentSample]` (after the
scan's final decrement) is nonzero and the initial-guess computation never
divides by zero. -/
theorem table_strict_denominator_nonzero (mX1 mX2 : ℚ) (hx10 : 0 ≤ mX1) (hx11 : mX1 ≤ 1)
    (hx20 : 0 ≤ mX2) (hx21 : mX2 ≤ 1) :
    (∀ i : Fin 10, sample mX1 mX2 i < sample mX1 mX2 (i + 1)) ∧
    ∀ aX : ℚ, sample mX1 mX2 ((scanResult mX1 mX2 aX).1 - 1 + 1) -
        sample mX1 mX2 ((scanResult mX1 mX2 aX).1 - 1) ≠ 0 := by
  constructor
  · exact fun i => sample_lt_succ mX1 mX2 hx10 hx11 hx20 hx21 i i.isLt
  · intro aX
    have hres : scanResult mX1 mX2 aX = scanLoop (sample mX1 mX2) aX 10 10 1 0 := rfl
    have hspec := scanLoop_spec (sample mX1 mX2) aX 10 1 0 (le_refl 1) (by norm_num)
      (by norm_num) (by norm_num)
    have hlt := sample_lt_succ mX1 mX2 hx10 hx11 hx20 hx21
      ((scanResult mX1 mX2 aX).1 - 1) (by rw [hres]; omega)
    exact ne_of_gt (sub_pos.2 hlt)

/-- One Newton-Raphson update as the specification describes it: leave t
unchanged if the slope there is exactly zero, otherwise apply
`t ← t - (calcBezier(t) - x) / slope(t)`.  A zero slope is an absorbing
state, so iterating this step a fixed number of times is the same as
running the loop with the early `return` on zero slope. -/
def newtonStep (aX mX1 mX2 t : ℚ) : ℚ :=
  if getSlope t mX1 mX2 = 0 then t
  else t - (calcBezier t mX1 mX2 - aX) / getSlope t mX1 mX2

/-- The root-refinement stage of `getTForX` as described by the
specification: slope at the interpolated guess at least 0.001 → exactly
4 Newton updates (no residual-tolerance exit, zero slope stops); slope
exactly zero → the unrefined guess; otherwise (positive below threshold or
negative) → bisection over the bracketing interval. -/
def getTForXSpec (mX1 mX2 aX : ℚ) : ℚ :=
  let g := guessForT mX1 mX2 aX
  let s := getSlope g mX1 mX2
  if s ≥ NEWTON_MIN_SLOPE then (newtonStep aX mX1 mX2)^[NEWTON_ITERATIONS] g
  else if s = 0 then g
  else binarySubdivide aX (intervalStartOf mX1 mX2 aX)
    (intervalStartOf mX1 mX2 aX + kSampleStepSize) mX1 mX2

theorem newtonStep_fixed (aX mX1 mX2 g : ℚ) (h : getSlope g mX1 mX2 = 0) :
    ∀ n : ℕ, (newtonStep aX mX1 mX2)^[n] g = g := by
  intro n
  induction n with
  | zero => rfl
  | succ n ih =>
    rw [Function.iterate_succ_apply, newtonStep, if_pos h, ih]

theorem newtonRaphsonGo_eq_iterate (aX mX1 mX2 : ℚ) :
    ∀ (n : ℕ) (g : ℚ), newtonRaphsonGo aX mX1 mX2 g n = (newtonStep aX mX1 mX2)^[n] g := by
  intro n
  induction n with
  | zero => intro g; rfl
  | succ n ih =>
    intro g
    rw [newtonRaphsonGo, Function.iterate_succ_apply]
    by_cases h : getSlope g mX1 mX2 = 0
    · rw [if_pos h, show newtonStep aX mX1 mX2 g = g from by rw [newtonStep, if_pos h],
        newtonStep_fixed aX mX1 mX2 g h n]
    · rw [if_neg h, ih, newtonStep, if_neg h]

/-- One unfolding of the bisection loop body. -/
theorem binarySubdivideGo_succ (aX mX1 mX2 aA aB : ℚ) (n : ℕ) :
    binarySubdivideGo aX mX1 mX2 aA aB (n + 1) =
      if |calcBezier (aA + (aB - aA) / 2) mX1 mX2 - aX| > SUBDIVISION_PRECISION then
        if calcBezier (aA + (aB - aA) / 2) mX1 mX2 - aX > 0 then
          ((binarySubdivideGo aX mX1 mX2 aA (aA + (aB - aA) / 2) n).1,
            (binarySubdivideGo aX mX1 mX2 aA (aA + (aB - aA) / 2) n).2 + 1)
        else
          ((binarySubdivideGo aX mX1 mX2 (aA + (aB - aA) / 2) aB n).1,
            (binarySubdivideGo aX mX1 mX2 (aA + (aB - aA) / 2) aB n).2 + 1)
      else (aA + (aB - aA) / 2, 1) := by
  rw [binarySubdivideGo]
  split_ifs <;> rfl

/-- The bisection loop body runs at most `n + 1` times when `n` further
iterations are allowed. -/
theorem binarySubdivideGo_count (aX mX1 mX2 : ℚ) :
    ∀ (n : ℕ) (aA aB : ℚ), (binarySubdivideGo aX mX1 mX2 aA aB n).2 ≤ n + 1 := by
  intro n
  induction n with
  | zero => intro aA aB; rw [binarySubdivideGo]
  | succ n ih =>
    intro aA aB
    rw [binarySubdivideGo_succ]
    split_ifs
    · exact Nat.succ_le_succ (ih aA _)
    · exact Nat.succ_le_succ (ih _ aB)
    · exact Nat.le_add_left 1 (n + 1)

/-- The bisection loop keeps an invariant bracket `x(aA) ≤ aX < x(aB)` and
returns a parameter whose image under the x-cubic is within
`max(SUBDIVISION_PRECISION, 4·(aB - aA)/2^(n+1))` of the target. -/
theorem binarySubdivideGo_residual (aX mX1 mX2 : ℚ)
    (hx10 : 0 ≤ mX1) (hx11 : mX1 ≤ 1) (hx20 : 0 ≤ mX2) (hx21 : mX2 ≤ 1) :
    ∀ (n : ℕ) (aA aB : ℚ), 0 ≤ aA → aA ≤ aB → aB ≤ 1 →
      calcBezier aA mX1 mX2 ≤ aX → aX < calcBezier aB mX1 mX2 →
      |calcBezier ((binarySubdivideGo aX mX1 mX2 aA aB n).1) mX1 mX2 - aX| ≤
        max SUBDIVISION_PRECISION (4 * (aB - aA) / 2 ^ (n + 1)) := by
  intro n
  induction n with
  | zero =>
    intro aA aB h0 hab h1 hlow hhigh
    have hm1 : aA ≤ aA + (aB - aA) / 2 := by linarith
    have hm2 : aA + (aB - aA) / 2 ≤ aB := by linarith
    rw [show (binarySubdivideGo aX mX1 mX2 aA aB 0).1 = aA + (aB - aA) / 2 from rfl]
    refine le_max_of_le_right ?_
    by_cases hc : calcBezier (aA + (aB - aA) / 2) mX1 mX2 - aX > 0
    · rw [abs_of_pos hc]
      have hlip := calcBezier_lipschitz mX1 mX2 aA (aA + (aB - aA) / 2) hx10 hx11 hx20 hx21
        h0 (by linarith) (by linarith) (by linarith) hm1
      have : (4:ℚ) * (aA + (aB - aA) / 2 - aA) = 4 * (aB - aA) / 2 ^ (0 + 1) := by ring
      linarith [this ▸ hlip]
    · push_neg at hc
      rw [abs_of_nonpos (by linarith)]
      have hlip := calcBezier_lipschitz mX1 mX2 (aA + (aB - aA) / 2) aB hx10 hx11 hx20 hx21
        (by linarith) (by linarith) (by linarith) h1 hm2
      have : (4:ℚ) * (aB - (aA + (aB - aA) / 2)) = 4 * (aB - aA) / 2 ^ (0 + 1) := by ring
      linarith [this ▸ hlip]
  | succ n ih =>
    intro aA aB h0 hab h1 hlow hhigh
    rw [binarySubdivideGo_succ]
    by_cases hgt : |calcBezier (aA + (aB - aA) / 2) mX1 mX2 - aX| > SUBDIVISION_PRECISION
    · rw [if_pos hgt]
      by_cases hc : calcBezier (aA + (aB - aA) / 2) mX1 mX2 - aX > 0
      · rw [if_pos hc]
        have hrec := ih aA (aA + (aB - aA) / 2) h0 (by linarith) (by linarith) hlow
          (by linarith)
        refine le_trans hrec (max_le_max (le_refl _) (le_of_eq ?_))
        ring
      · rw [if_neg hc]
        push_neg at hc
        have hrec := ih (aA + (aB - aA) / 2) aB (by linarith) (by linarith) h1
          (by linarith) hhigh
        refine le_trans hrec (max_le_max (le_refl _) (le_of_eq ?_))
        ring
    · rw [if_neg hgt]
      push_neg at hgt
      exact le_max_of_le_left hgt

/-- C5: the refinement stage of the root finder matches its specification:
with slope at the interpolated guess at least 0.001, exactly
`NEWTON_ITERATIONS = 4` Newton-Raphson updates
`t ← t - (calcBezier(t) - x)/slope(t)` are applied (no residual-tolerance
early exit), where a slope recomputed as exactly zero before an update
freezes t (the absorbing guarded step equals the source's early return);
with slope exactly zero the unrefined guess is returned; otherwise
(slope negative or positive below 0.001) bisection is used over
`[intervalStart, intervalStart + kSampleStepSize]`. -/
theorem getTForX_refinement_spec (mX1 mX2 aX : ℚ) :
    getTForX mX1 mX2 aX = getTForXSpec mX1 mX2 aX := by
  rw [getTForX_branches, getTForXSpec]
  by_cases h : getSlope (guessForT mX1 mX2 aX) mX1 mX2 ≥ NEWTON_MIN_SLOPE
  · rw [if_pos h, if_pos h, newtonRaphsonIterate,
      newtonRaphsonGo_eq_iterate aX mX1 mX2 NEWTON_ITERATIONS]
  · rw [if_neg h, if_neg h]

/-- C6: the bisection fallback is bounded: its loop body executes at most
`SUBDIVISION_MAX_ITERATIONS = 10` times for any input; on any interval it
either stops at once because the first midpoint's absolute residual is
already within `SUBDIVISION_PRECISION = 1e-7`, returning that midpoint, or
(residual still too large) recurses with the bracket narrowed to the half
whose sign brackets the root — `[aA, mid]` when the midpoint overshoots,
`[mid, aB]` otherwise — with one fewer iteration allowed, and the value
returned is the midpoint computed by the last body execution. -/
theorem binarySubdivide_bounded (aX aA aB mX1 mX2 : ℚ) :
    (binarySubdivideGo aX mX1 mX2 aA aB (SUBDIVISION_MAX_ITERATIONS - 1)).2 ≤
      SUBDIVISION_MAX_ITERATIONS ∧
    binarySubdivide aX aA aB mX1 mX2 =
      (binarySubdivideGo aX mX1 mX2 aA aB (SUBDIVISION_MAX_ITERATIONS - 1)).1 ∧
    ((|calcBezier (aA + (aB - aA) / 2) mX1 mX2 - aX| ≤ SUBDIVISION_PRECISION ∧
        binarySubdivide aX aA aB mX1 mX2 = aA + (aB - aA) / 2 ∧
        (binarySubdivideGo aX mX1 mX2 aA aB (SUBDIVISION_MAX_ITERATIONS - 1)).2 = 1) ∨
      (|calcBezier (aA + (aB - aA) / 2) mX1 mX2 - aX| > SUBDIVISION_PRECISION ∧
        binarySubdivide aX aA aB mX1 mX2 =
          (if calcBezier (aA + (aB - aA) / 2) mX1 mX2 - aX > 0 then
            (binarySubdivideGo aX mX1 mX2 aA (aA + (aB - aA) / 2)
              (SUBDIVISION_MAX_ITERATIONS - 2)).1
          else
            (binarySubdivideGo aX mX1 mX2 (aA + (aB - aA) / 2) aB
              (SUBDIVISION_MAX_ITERATIONS - 2)).1))) := by
  refine ⟨binarySubdivideGo_count aX mX1 mX2 _ aA aB, rfl, ?_⟩
  have h9 : SUBDIVISION_MAX_ITERATIONS - 1 = (SUBDIVISION_MAX_ITERATIONS - 2) + 1 := rfl
  by_cases hgt : |calcBezier (aA + (aB - aA) / 2) mX1 mX2 - aX| > SUBDIVISION_PRECISION
  · right
    refine ⟨hgt, ?_⟩
    rw [binarySubdivide, h9, binarySubdivideGo_succ, if_pos hgt]
    split_ifs <;> rfl
  · left
    push_neg at hgt
    have hr : binarySubdivideGo aX mX1 mX2 aA aB (SUBDIVISION_MAX_ITERATIONS - 1) =
        (aA + (aB - aA) / 2, 1) := by
      rw [h9, binarySubdivideGo_succ, if_neg (not_lt.2 hgt)]
    exact ⟨hgt, by rw [binarySubdivide, hr], by rw [hr]⟩

/-- Witness for C10 at the curve with control x-coordinates (0, 1),
checking the first adjacent pair and the scan for target 1/2. -/
theorem table_strict_denominator_nonzero_witness :
    sample 0 1 0 < sample 0 1 1 ∧
    sample 0 1 ((scanResult 0 1 (1/2)).1 - 1 + 1) -
      sample 0 1 ((scanResult 0 1 (1/2)).1 - 1) ≠ 0 :=
  ⟨(table_strict_denominator_nonzero 0 1 (by norm_num) (by norm_num) (by norm_num)
      (by norm_num)).1 ⟨0, by norm_num⟩,
   (table_strict_denominator_nonzero 0 1 (by norm_num) (by norm_num) (by norm_num)
      (by norm_num)).2 (1/2)⟩

/-- C4: the sample table built at construction has exactly 11 entries, and
for every i in 0..10 entry i is the x-axis cubic evaluated at t = i/10,
`((A·t + B)·t + C)·t` with `A = 1 - 3·x2 + 3·x1`, `B = 3·x2 - 6·x1`,
`C = 3·x1`.  The table is a pure value: nothing in the embedding (and
nothing in the source after the construction loop) ever writes to it. -/
theorem sample_table_spec (mX1 mX2 : ℚ) :
    (sampleValues mX1 mX2).length = 11 ∧
    ∀ i : Fin 11, (sampleValues mX1 mX2).getD i 0 =
      (((1 - 3 * mX2 + 3 * mX1) * ((i : ℚ) / 10) + (3 * mX2 - 6 * mX1)) * ((i : ℚ) / 10) +
        3 * mX1) * ((i : ℚ) / 10) := by
  constructor
  · simp [sampleValues, kSplineTableSize]
  · intro i
    have h := sample_eq mX1 mX2 i (by exact_mod_cast i.isLt)
    rw [sample] at h
    rw [h, calcBezier, A, B, C, kSampleStepSize]
    ring

/-- C1: the constructor raises the InvalidArgument error if and only if
`mX1` or `mX2` lies outside `[0,1]` (it succeeds, returning a total
evaluation function, exactly when `0 ≤ mX1 ≤ 1` and `0 ≤ mX2 ≤ 1`); the
y-coordinates are never constrained.  The returned evaluation function is a
total function `ℚ → ℚ`, so no error is ever raised by it. -/
theorem bezier_error_iff (mX1 mY1 mX2 mY2 : ℚ) :
    (bezier mX1 mY1 mX2 mY2 = Except.error "bezier x values must be in [0, 1] range" ↔
      ¬(0 ≤ mX1 ∧ mX1 ≤ 1 ∧ 0 ≤ mX2 ∧ mX2 ≤ 1)) ∧
    ((∃ f : ℚ → ℚ, bezier mX1 mY1 mX2 mY2 = Except.ok f) ↔
      (0 ≤ mX1 ∧ mX1 ≤ 1 ∧ 0 ≤ mX2 ∧ mX2 ≤ 1)) := by
  by_cases h : 0 ≤ mX1 ∧ mX1 ≤ 1 ∧ 0 ≤ mX2 ∧ mX2 ≤ 1
  · rw [bezier, if_neg (not_not_intro h)]
    by_cases hid : mX1 = mY1 ∧ mX2 = mY2
    · rw [if_pos hid]
      exact ⟨by simp [h], by simp [h]⟩
    · rw [if_neg hid]
      exact ⟨by simp [h], by simp [h]⟩
  · rw [bezier, if_pos h]
    exact ⟨by simp [h], by simp [h]⟩

/-- C2: for every tuple accepted by the constructor, the returned evaluation
function maps 0 to exactly 0 and 1 to exactly 1: the endpoint guard
`if (x === 0 || x === 1) return x` fires before any root finding, and the
identity fast path trivially satisfies the same equations. -/
theorem evaluate_endpoints (mX1 mY1 mX2 mY2 : ℚ) (f : ℚ → ℚ)
    (h : bezier mX1 mY1 mX2 mY2 = Except.ok f) : f 0 = 0 ∧ f 1 = 1 := by
  by_cases hg : mX1 ≥ 0 ∧ mX1 ≤ 1 ∧ mX2 ≥ 0 ∧ mX2 ≤ 1
  · rw [bezier, if_neg (not_not_intro hg)] at h
    by_cases hid : mX1 = mY1 ∧ mX2 = mY2
    · rw [if_pos hid] at h
      injection h with h
      subst h
      exact ⟨rfl, rfl⟩
    · rw [if_neg hid] at h
      injection h with h
      subst h
      constructor <;> simp [BezierEasing]
  · rw [bezier, if_pos hg] at h
    exact absurd h (by simp)

/-- Witness for C2 at the standard "ease" control points (1/4, 1/10, 1/4, 1). -/
theorem evaluate_endpoints_witness :
    bezier (1/4) (1/10) (1/4) 1 = Except.ok (BezierEasing (1/4) (1/10) (1/4) 1) ∧
    BezierEasing (1/4) (1/10) (1/4) 1 0 = 0 ∧ BezierEasing (1/4) (1/10) (1/4) 1 1 = 1 := by
  have h : bezier (1/4) (1/10) (1/4) 1 = Except.ok (BezierEasing (1/4) (1/10) (1/4) 1) := by
    rw [bezier, if_neg (by norm_num), if_neg (by norm_num)]
  exact ⟨h, evaluate_endpoints (1/4) (1/10) (1/4) 1 _ h⟩

/-- C3: whenever the diagonal-identity test `mX1 == mY1 && mX2 == mY2` holds
(in particular for (0,0,1,1)) the constructor returns `LinearEasing`, which
is the identity on all of ℚ, including inputs outside `[0,1]`; the sample
table and the root finder do not occur in the returned function. -/
theorem identity_shortcut (mX1 mY1 mX2 mY2 : ℚ)
    (h0 : 0 ≤ mX1) (h1 : mX1 ≤ 1) (h2 : 0 ≤ mX2) (h3 : mX2 ≤ 1)
    (hxy1 : mX1 = mY1) (hxy2 : mX2 = mY2) :
    bezier mX1 mY1 mX2 mY2 = Except.ok LinearEasing ∧ ∀ x : ℚ, LinearEasing x = x := by
  refine ⟨?_, fun x => rfl⟩
  rw [bezier, if_neg (not_not_intro ⟨h0, h1, h2, h3⟩), if_pos ⟨hxy1, hxy2⟩]

/-- Witness for C3 at (0,0,1,1), evaluated at 5/2, a point outside [0,1]. -/
theorem identity_shortcut_witness :
    bezier 0 0 1 1 = Except.ok LinearEasing ∧ LinearEasing (5/2) = 5/2 :=
  ⟨(identity_shortcut 0 0 1 1 (by norm_num) (by norm_num) (by norm_num) (by norm_num)
      rfl rfl).1,
   (identity_shortcut 0 0 1 1 (by norm_num) (by norm_num) (by norm_num) (by norm_num)
      rfl rfl).2 (5/2)⟩

/-- C9: JavaScript compares with IEEE semantics, so every comparison with
NaN is false; modelling NaN as `none`, the guard conjunction
`mX1 >= 0 && mX1 <= 1 && mX2 >= 0 && mX2 <= 1` evaluates to false whenever
either x-coordinate is NaN, and a false guard makes the constructor throw
the same InvalidArgument error as an out-of-range coordinate — it never
builds an easing function from a NaN x-coordinate. -/
theorem nan_guard (mX1 mX2 : Option ℚ) (h : mX1 = none ∨ mX2 = none) :
    xRangeCheck mX1 mX2 = false ∧
    ∀ x1 y1 x2 y2 : ℚ, xRangeCheck (some x1) (some x2) = false →
      bezier x1 y1 x2 y2 = Except.error "bezier x values must be in [0, 1] range" := by
  constructor
  · rcases h with h | h <;> subst h
    · simp [xRangeCheck, jsGe]
    · rcases mX1 with _ | a <;> simp [xRangeCheck, jsGe, jsLe]
  · intro x1 y1 x2 y2 hc
    rw [bezier, if_pos]
    intro hcontra
    rw [show xRangeCheck (some x1) (some x2) =
          (decide (x1 ≥ 0) && decide (x1 ≤ 1) && decide (x2 ≥ 0) && decide (x2 ≤ 1))
        from rfl] at hc
    simp only [Bool.and_eq_false_iff, decide_eq_false_iff_not] at hc
    obtain ⟨hg1, hl1, hg2, hl2⟩ := hcontra
    rcases hc with ((hc | hc) | hc) | hc <;> exact hc (by assumption)

/-- Witness for C9: a NaN first x-coordinate falsifies the guard, and a
falsified guard (here from the plain out-of-range value 2) produces the
InvalidArgument error. -/
theorem nan_guard_witness :
    xRangeCheck none (some (1/2)) = false ∧
    bezier 2 0 0 0 = Except.error "bezier x values must be in [0, 1] range" :=
  ⟨(nan_guard none (some (1/2)) (Or.inl rfl)).1,
   (nan_guard none (some (1/2)) (Or.inl rfl)).2 2 0 0 0 (by decide)⟩

unseal Rat.add Rat.mul Rat.sub Rat.inv in
/-- C7 (counterexample): the claimed root-finder accuracy `< 1e-4` fails.
At the valid non-identity curve with control points (1, 1/3, 0, 2/3) —
x-coordinates 1 and 0, within [0,1] — and target x = 999/2000, the Newton
branch of `getTForX` overshoots near the curve's flat point t = 1/2 and
returns a parameter whose x-residual is ≈ 1.98e-3 > 1e-4. -/
theorem rootfinder_accuracy_counterexample :
    ((0:ℚ) ≤ 1 ∧ (1:ℚ) ≤ 1 ∧ (0:ℚ) ≤ 0 ∧ (0:ℚ) ≤ 1) ∧
    ¬((1:ℚ) = 1/3 ∧ (0:ℚ) = 2/3) ∧
    0 < (999/2000 : ℚ) ∧ (999/2000 : ℚ) < 1 ∧
    ¬(|calcBezier (getTForX 1 0 (999/2000)) 1 0 - 999/2000| < 1/10000) :=
  ⟨by norm_num, by norm_num, by norm_num, by norm_num, by decide⟩

/-- C7 (amended): the 1e-4 bound holds in neither generality, but the
bisection fallback is accurate: for any valid curve and any target
x ∈ (0,1) for which the root finder takes the bisection branch (slope at
the interpolated guess below `NEWTON_MIN_SLOPE` and nonzero), the returned
parameter t satisfies `|curve_x(t) - x| ≤ 1/2560`
(= 4·kSampleStepSize/2^SUBDIVISION_MAX_ITERATIONS, and ≥ the 1e-7 precision
stop), ≈ 3.9e-4. -/
theorem getTForX_bisection_residual (mX1 mX2 aX : ℚ)
    (hx10 : 0 ≤ mX1) (hx11 : mX1 ≤ 1) (hx20 : 0 ≤ mX2) (hx21 : mX2 ≤ 1)
    (ha0 : 0 < aX) (ha1 : aX < 1)
    (hsl : ¬ getSlope (guessForT mX1 mX2 aX) mX1 mX2 ≥ NEWTON_MIN_SLOPE)
    (hsnz : ¬ getSlope (guessForT mX1 mX2 aX) mX1 mX2 = 0) :
    |calcBezier (getTForX mX1 mX2 aX) mX1 mX2 - aX| ≤ 1/2560 := by
  rw [getTForX_branches, if_neg hsl, if_neg hsnz, binarySubdivide]
  obtain ⟨h1, h10, hist, hlow, hhigh⟩ := scan_bracket mX1 mX2 aX ha0 ha1
  have hc1 : (1:ℚ) ≤ ((scanResult mX1 mX2 aX).1 : ℚ) := by exact_mod_cast h1
  have hc10 : ((scanResult mX1 mX2 aX).1 : ℚ) ≤ 10 := by exact_mod_cast h10
  have hsum : intervalStartOf mX1 mX2 aX + kSampleStepSize =
      ((scanResult mX1 mX2 aX).1 : ℚ) * kSampleStepSize := by
    rw [hist, kSampleStepSize]
    ring
  have hres := binarySubdivideGo_residual aX mX1 mX2 hx10 hx11 hx20 hx21
    (SUBDIVISION_MAX_ITERATIONS - 1)
    (intervalStartOf mX1 mX2 aX) (intervalStartOf mX1 mX2 aX + kSampleStepSize)
    (by rw [hist, kSampleStepSize]; linarith)
    (by rw [kSampleStepSize]; linarith)
    (by rw [hsum, kSampleStepSize]; linarith)
    (by rw [hist]; exact hlow)
    (by rw [hsum]; exact hhigh)
  refine le_trans hres (le_of_eq ?_)
  have : intervalStartOf mX1 mX2 aX + kSampleStepSize - intervalStartOf mX1 mX2 aX =
      kSampleStepSize := by ring
  rw [this]
  norm_num [SUBDIVISION_PRECISION, SUBDIVISION_MAX_ITERATIONS, kSampleStepSize]

unseal Rat.add Rat.mul Rat.sub Rat.inv in
/-- Witness for the amended C7: at the curve with x-control-coordinates
(1, 0) and target 9993/20000 the slope at the interpolated guess is
918.75e-6 ∈ (0, 0.001), so the bisection branch runs, and the residual
obeys the 1/2560 bound. -/
theorem getTForX_bisection_residual_witness :
    ¬ getSlope (guessForT 1 0 (9993/20000)) 1 0 ≥ NEWTON_MIN_SLOPE ∧
    ¬ getSlope (guessForT 1 0 (9993/20000)) 1 0 = 0 ∧
    |calcBezier (getTForX 1 0 (9993/20000)) 1 0 - 9993/20000| ≤ 1/2560 :=
  ⟨by decide, by decide,
    getTForX_bisection_residual 1 0 (9993/20000) (by norm_num) (by norm_num) (by norm_num)
      (by norm_num) (by norm_num) (by norm_num) (by decide) (by decide)⟩

/-- Simpson's rule is exact for quadratics: the divided difference of the
cubic equals the weighted average of its derivative at the two endpoints
and the midpoint. -/
theorem Qdiff_simpson (aA1 aA2 s t : ℚ) :
    Qdiff aA1 aA2 s t =
      (getSlope s aA1 aA2 + 4 * getSlope ((s + t) / 2) aA1 aA2 + getSlope t aA1 aA2) / 6 := by
  rw [Qdiff, getSlope, getSlope, getSlope]
  ring

/-- A cubic whose derivative is nonnegative on [0,1] is nondecreasing
there. -/
theorem calcBezier_mono_of_slope_nonneg (aA1 aA2 s t : ℚ) (hs0 : 0 ≤ s) (ht1 : t ≤ 1)
    (hst : s ≤ t) (hy : ∀ u : ℚ, 0 ≤ u → u ≤ 1 → 0 ≤ getSlope u aA1 aA2) :
    calcBezier s aA1 aA2 ≤ calcBezier t aA1 aA2 := by
  have hsub := calcBezier_sub aA1 aA2 s t
  have hsimp := Qdiff_simpson aA1 aA2 s t
  have h1 := hy s hs0 (le_trans hst ht1)
  have h2 := hy ((s + t) / 2) (by linarith) (by linarith)
  have h3 := hy t (le_trans hs0 hst) ht1
  have hq : 0 ≤ Qdiff aA1 aA2 s t := by rw [hsimp]; linarith
  nlinarith [mul_nonneg (sub_nonneg.2 hst) hq]

unseal Rat.add Rat.mul Rat.sub Rat.inv in
/-- C8 (counterexample): the evaluation function need not be monotone.  The
curve (1, 1/3, 0, 2/3) is valid (x-coordinates 1, 0 ∈ [0,1]) and not the
identity; its y-polynomial has coefficients A = B = 0, C = 1, i.e.
y(t) = t with slope ≡ 1, so y is (strictly) nondecreasing on [0,1].  Yet
for inputs 1997/4000 < 999/2000, both in [0,1], the constructed evaluation
function decreases: the approximate root finder returns a smaller parameter
for the larger input near the curve's flat point. -/
theorem evaluate_monotone_counterexample :
    ((0:ℚ) ≤ 1 ∧ (1:ℚ) ≤ 1 ∧ (0:ℚ) ≤ 0 ∧ (0:ℚ) ≤ 1) ∧
    A (1/3) (2/3) = 0 ∧ B (1/3) (2/3) = 0 ∧ C (1/3) = 1 ∧
    bezier 1 (1/3) 0 (2/3) = Except.ok (BezierEasing 1 (1/3) 0 (2/3)) ∧
    (0:ℚ) ≤ 1997/4000 ∧ (1997/4000 : ℚ) < 999/2000 ∧ (999/2000 : ℚ) ≤ 1 ∧
    BezierEasing 1 (1/3) 0 (2/3) (1997/4000) > BezierEasing 1 (1/3) 0 (2/3) (999/2000) :=
  ⟨by norm_num, by norm_num [A], by norm_num [B], by norm_num [C],
    by rw [bezier, if_neg (by norm_num), if_neg (by norm_num)],
    by norm_num, by norm_num, by norm_num, by decide⟩

/-- C8 (amended): the exact curve is monotone even though the implemented
evaluation function is not.  For any valid x-control-coordinates and any
y-control-coordinates keeping the y-slope nonnegative on [0,1], whenever
two parameters s, t of [0,1] satisfy `curve_x(s) ≤ curve_x(t)` — i.e. they
are exact root-finder answers for targets in that order — the y-values obey
`curve_y(s) ≤ curve_y(t)`; the non-monotonicity of `evaluate` is entirely
an artifact of the approximate root finder. -/
theorem exact_curve_monotone (mX1 mX2 mY1 mY2 s t : ℚ)
    (hx10 : 0 ≤ mX1) (hx11 : mX1 ≤ 1) (hx20 : 0 ≤ mX2) (hx21 : mX2 ≤ 1)
    (hs0 : 0 ≤ s) (hs1 : s ≤ 1) (ht0 : 0 ≤ t) (ht1 : t ≤ 1)
    (hy : ∀ u : ℚ, 0 ≤ u → u ≤ 1 → 0 ≤ getSlope u mY1 mY2)
    (hxy : calcBezier s mX1 mX2 ≤ calcBezier t mX1 mX2) :
    calcBezier s mY1 mY2 ≤ calcBezier t mY1 mY2 := by
  have hst : s ≤ t := by
    by_contra hlt
    push_neg at hlt
    exact absurd hxy (not_le.2
      (calcBezier_strictMono mX1 mX2 t s hx10 hx11 hx20 hx21 ht0 ht1 hs0 hs1 hlt))
  exact calcBezier_mono_of_slope_nonneg mY1 mY2 s t hs0 ht1 hst hy

/-- Witness for the amended C8 at x-curve (0,1), identity y-curve
(1/3, 2/3), parameters 1/4 ≤ 1/2. -/
theorem exact_curve_monotone_witness :
    calcBezier (1/4) (1/3) (2/3) ≤ calcBezier (1/2) (1/3) (2/3) :=
  exact_curve_monotone 0 1 (1/3) (2/3) (1/4) (1/2)
    (by norm_num) (by norm_num) (by norm_num) (by norm_num)
    (by norm_num) (by norm_num) (by norm_num) (by norm_num)
    (fun u hu0 hu1 => by rw [getSlope, A, B, C]; norm_num)
    (by norm_num [calcBezier, A, B, C])

end BezierEasing
